import Mathlib

/-
Verification development for ipcgame.c, a racing game between client
processes coordinated by a watchdog process through a message queue,
a binary semaphore and a block of shared memory.

The embedding below is a shallow, sequential model of the source:
pure computations of the watchdog and client processes are translated
to Lean functions, machine integers to Int or Nat (scores and counters
stay far below any overflow bound: scores reach at most MSGNR = 100 and
runs_done at most MAXRUNS = 1200), and the pattern of shared-memory
accesses is reified as explicit event traces so that locking discipline
can be checked.
-/

namespace IpcGame

/-- Constant MAXCLIENTS from the source: number of client processes. -/
def MAXCLIENTS : Nat := 12

/-- Constant MSGNR from the source: messages sent per client, also the
target score. -/
def MSGNR : Nat := 100

/-- Constant MAXRUNS from the source: MSGNR * MAXCLIENTS, the exhaustion
bound on processed messages. -/
def MAXRUNS : Nat := MSGNR * MAXCLIENTS

/-- Pointwise update of an Int-indexed table, used for the watchdog
score array. The C array scores[MAXCLIENTS] is modelled as a total map
so that the effect of an out-of-range index stays expressible. -/
def updI (f : Int → Nat) (k : Int) (v : Nat) : Int → Nat :=
  fun x => if x = k then v else f x

/-- Pointwise update of a Nat-indexed table, used for clientpids. -/
def updN (f : Nat → Nat) (k : Nat) (v : Nat) : Nat → Nat :=
  fun x => if x = k then v else f x

/-- The shared-memory struct game: frontrunner, runs_done and the
clientpids registry. -/
structure Game where
  frontrunner : Int
  runs_done : Nat
  clientpids : Nat → Nat

/-- The watchdog process state: its private scores array, the local
variables frontrunner, winner and client_nr, and its view of the
shared-memory block. -/
structure WDState where
  scores : Int → Nat
  frontrunner : Int
  winner : Int
  client_nr : Int
  shared : Game

/-- The frontrunner scan loop of watchdog_code: for i in [0, MAXCLIENTS)
starting from frontrunner_score = 0, whenever scores[i] exceeds the best
score seen so far, record i as frontrunner. The last argument counts the
remaining iterations; the scan starts at scanAux sc 0 0 fr MAXCLIENTS. -/
def scanAux (sc : Int → Nat) : Nat → Nat → Int → Nat → Nat × Int
  | _, best, fr, 0 => (best, fr)
  | i, best, fr, n + 1 =>
    if best < sc (i : Int) then
      scanAux sc (i + 1) (sc (i : Int)) (i : Int) n
    else
      scanAux sc (i + 1) best fr n

/-- Initial state of the watchdog: scores zero-initialized, local
frontrunner 0, winner -1, shared memory zero-initialized by the kernel
with runs_done set to 0 by main. The local variable client_nr is
uninitialized in the source; the model starts it at 0, and no theorem
below depends on this choice. -/
def wdInit : WDState :=
  { scores := fun _ => 0
    frontrunner := 0
    winner := -1
    client_nr := 0
    shared :=
      { frontrunner := 0
        runs_done := 0
        clientpids := fun _ => 0 } }

/-- One iteration of the watchdog receive loop after a message carrying
client number m was extracted: increment scores[m], rescan for the
frontrunner, record the winner when scores[frontrunner] == MSGNR and the
triggering client is the frontrunner, then (under the semaphore) publish
the frontrunner into shared memory and increment runs_done. -/
def wdStep (s : WDState) (m : Int) : WDState :=
  let sc := updI s.scores m (s.scores m + 1)
  let fr := (scanAux sc 0 0 s.frontrunner MAXCLIENTS).2
  { scores := sc
    frontrunner := fr
    winner := if sc fr = MSGNR ∧ m = fr then fr else s.winner
    client_nr := m
    shared :=
      { frontrunner := fr
        runs_done := s.shared.runs_done + 1
        clientpids := s.shared.clientpids } }

/-- The do-while condition of the watchdog receive loop:
winner == -1 && runs_done < MAXRUNS. -/
def loopCond (s : WDState) : Bool :=
  (s.winner == -1) && decide (s.shared.runs_done < MAXRUNS)

/-- The watchdog receive loop, driven by the list of client numbers
carried by successive messages, in arrival order. The body runs before
the condition is tested, matching the do-while of the source. -/
def wdRun : WDState → List Int → WDState
  | s, [] => s
  | s, m :: ms =>
    let t := wdStep s m
    if loopCond t then wdRun t ms else t

/-- Return value of sscanf(msg.data, "%d", &client_nr): the parse
outcome is some v when an integer v can be converted from the message
data (sscanf returns 1, the number of conversions) and none when no
integer can be converted (sscanf matches nothing and returns 0). -/
def sscanf_d : Option Int → Int
  | none => 0
  | some _ => 1

/-- The watchdog message-handling step including the sscanf guard of
the source: the message is skipped (continue) only when the sscanf
return value is negative; otherwise client_nr holds the parsed value
when the conversion succeeded and its previous value when it did not,
and the scoring step runs on that value. -/
def wdReceiveStep (s : WDState) (parsed : Option Int) : WDState :=
  let cn := match parsed with
    | some v => v
    | none => s.client_nr
  if sscanf_d parsed < 0 then s else wdStep s cn

/-- The broadcast loop after the receive loop: for every index
i in [0, MAXCLIENTS), read clientpids[i] from shared memory and send it
SIGUSR1; the result lists the signalled pids in order. -/
def wdBroadcast (g : Game) : List Nat :=
  (List.range MAXCLIENTS).map (fun i => g.clientpids i)

/-- The whole watchdog process over a message arrival sequence: run the
receive loop from the initial state, then broadcast to every registered
pid. The broadcast is unconditional: it runs whether or not a winner was
recorded. -/
def watchdog_code (msgs : List Int) : WDState × List Nat :=
  let f := wdRun wdInit msgs
  (f, wdBroadcast f.shared)

/-- Observable behaviour of one call to sem_operation, the semaphore
lock/unlock helper, as a function of whether the underlying semop call
fails: on failure the error is reported via perror and -1 is returned;
on success 1 is returned. The field exited records whether the function
terminates the process: the source contains no exit call on either
path, so it is false in both branches. -/
structure SemOpResult where
  reported : Bool
  ret : Int
  exited : Bool

/-- Model of sem_operation from the source: semop failure is reported
and turned into return value -1, success into return value 1; neither
branch exits the process. -/
def sem_operation (semopFails : Bool) : SemOpResult :=
  if semopFails then
    { reported := true, ret := -1, exited := false }
  else
    { reported := false, ret := 1, exited := false }

/-- Registration step of a client process in main: under the semaphore,
write its own pid into clientpids[i]. -/
def register_pid (g : Game) (i : Nat) (pid : Nat) : Game :=
  { g with clientpids := updN g.clientpids i pid }

/-- One iteration of the client send loop, acting on the pair of the
shared-memory block and the local frontrunner variable. When the send
succeeds the client reads frontrunner from shared memory under the
semaphore and updates its local copy when it differs; when the send
fails it only logs and continues. No branch writes the shared block. -/
def clientIterate (st : Game × Int) (ok : Bool) : Game × Int :=
  if ok then
    let actual_frontrunner := st.1.frontrunner
    (st.1, if st.2 ≠ actual_frontrunner then actual_frontrunner else st.2)
  else
    st

/-- The client send loop of client_code: exactly MSGNR iterations,
the i-th using the success or failure of the i-th msgsnd call, starting
from local frontrunner 0. -/
def client_code (g : Game) (sends : Nat → Bool) : Game × Int :=
  (List.range MSGNR).foldl (fun st i => clientIterate st (sends i)) (g, 0)

/-- Outcome of one send iteration of a client: the message was sent, or
the failure was logged via perror and the report dropped. -/
inductive SendOutcome where
  | sent
  | droppedLogged
deriving DecidableEq

/-- Trace of the send attempts of one client: one entry per loop index
i in [0, MSGNR), recording whether the i-th report was sent or dropped
after logging. No index is ever retried. -/
def clientSendTrace (sends : Nat → Bool) : List (Nat × SendOutcome) :=
  (List.range MSGNR).map
    (fun i => (i, if sends i then SendOutcome.sent else SendOutcome.droppedLogged))

/-- A full client process acting on shared memory: registration of its
pid followed by the send loop. -/
def client_process (g : Game) (i : Nat) (pid : Nat) (sends : Nat → Bool) :
    Game × Int :=
  client_code (register_pid g i pid) sends

/-- Fields of the shared-memory struct, for access traces. -/
inductive SMField where
  | frontrunner
  | runs_done
  | clientpid (i : Nat)
deriving DecidableEq

/-- Shared-memory related events a process can perform: semaphore lock
and unlock, and reads and writes of individual fields. -/
inductive SMEvent where
  | lock
  | unlock
  | read (f : SMField)
  | write (f : SMField)
deriving DecidableEq

/-- Whether an event is a read access. -/
def isRead : SMEvent → Bool
  | SMEvent.read _ => true
  | _ => false

/-- The accesses of a trace performed while the semaphore is not held,
given whether it is held at the start. -/
def unlockedAccesses : List SMEvent → Bool → List SMEvent
  | [], _ => []
  | SMEvent.lock :: es, _ => unlockedAccesses es true
  | SMEvent.unlock :: es, _ => unlockedAccesses es false
  | e :: es, held => (if held then [] else [e]) ++ unlockedAccesses es held

/-- Shared-memory access trace of one iteration of the watchdog receive
loop that does not record a winner: publish frontrunner and increment
runs_done under the semaphore, then read runs_done in the do-while
condition after the semaphore was released. -/
def wdIterTrace : List SMEvent :=
  [SMEvent.lock, SMEvent.write SMField.frontrunner,
   SMEvent.write SMField.runs_done, SMEvent.unlock,
   SMEvent.read SMField.runs_done]

/-- Shared-memory access trace of the watchdog broadcast loop: one read
of clientpids[i] per client, with no semaphore operation around it. -/
def wdBroadcastTrace : List SMEvent :=
  (List.range MAXCLIENTS).map (fun i => SMEvent.read (SMField.clientpid i))

/-- Shared-memory access trace of the registration step of client i in
main: write its pid into clientpids[i] under the semaphore. -/
def clientRegisterTrace (i : Nat) : List SMEvent :=
  [SMEvent.lock, SMEvent.write (SMField.clientpid i), SMEvent.unlock]

/-- Shared-memory access trace of a successful client send iteration:
read frontrunner under the semaphore. A failed send performs no shared
access at all. -/
def clientIterTrace : List SMEvent :=
  [SMEvent.lock, SMEvent.read SMField.frontrunner, SMEvent.unlock]

/-- Model of random_sleep: srand is called on every invocation with
getpid() % 1234, overwriting the PRNG state st with a seed derived from
the pid alone, then rand() % 398 gives the sleep duration. randNext is
the PRNG step function of the C library, mapping a state to the drawn
value and the successor state. -/
def random_sleep (randNext : Nat → Nat × Nat) (pid : Nat) (st : Nat) :
    Nat × Nat :=
  let st1 := pid % 1234
  let r := randNext st1
  (r.1 % 398, r.2)

/-- A concrete watchdog state used to exercise the winner-recording
step: client 0 already has 99 points and its next message arrives. -/
def testState : WDState :=
  { scores := fun x => if x = 0 then 99 else 0
    frontrunner := 0
    winner := -1
    client_nr := 0
    shared :=
      { frontrunner := 0
        runs_done := 500
        clientpids := fun _ => 0 } }

/-- C2 counterexample: on semop failure, sem_operation reports the
error and returns -1 but does not exit the process, refuting the claim
that the calling process exits with a failure status after a failed
acquire or release. -/
theorem sem_operation_failure_no_exit :
    (sem_operation true).reported = true ∧
    (sem_operation true).ret = -1 ∧
    (sem_operation true).exited = false := by
  constructor
  · rfl
  · constructor
    · rfl
    · rfl

/-- C2 amended: if the underlying semaphore operation fails, the
failure is reported and sem_operation returns -1; in no case does the
function exit the calling process, which continues past the failed
acquire or release (its callers ignore the return value). -/
theorem sem_operation_spec (b : Bool) :
    (sem_operation b).reported = b ∧
    (sem_operation b).exited = false ∧
    (sem_operation b).ret = (if b then (-1 : Int) else 1) := by
  cases b <;> simp [sem_operation]

/-- C3 counterexample: the watchdog reads runs_done in its do-while
condition after releasing the semaphore, and reads every clientpids
slot during the broadcast loop with no semaphore held, so not every
read of the shared RaceState happens while holding the
Mutual-Exclusion Primitive. -/
theorem shared_reads_outside_lock :
    unlockedAccesses wdIterTrace false = [SMEvent.read SMField.runs_done] ∧
    unlockedAccesses wdBroadcastTrace false =
      (List.range MAXCLIENTS).map (fun i => SMEvent.read (SMField.clientpid i)) := by
  constructor
  · rfl
  · rfl

/-- C3 amended: the registration write of a client pid and the client
send-loop read of the frontrunner happen entirely under the
Mutual-Exclusion Primitive, as do the watchdog writes of frontrunner
and runs_done; the only accesses outside the primitive are reads — the
watchdog loop-condition read of runs_done and its broadcast reads of
the clientpids slots. -/
theorem shared_access_locking (i : Nat) :
    unlockedAccesses (clientRegisterTrace i) false = [] ∧
    unlockedAccesses clientIterTrace false = [] ∧
    unlockedAccesses wdIterTrace false = [SMEvent.read SMField.runs_done] ∧
    (unlockedAccesses wdIterTrace false).all isRead = true ∧
    (unlockedAccesses wdBroadcastTrace false).all isRead = true := by
  refine ⟨rfl, rfl, rfl, rfl, ?_⟩
  rfl

/-- Helper: a client send iteration leaves the shared block of its
state pair unchanged, hence so does any fold of iterations. -/
theorem clientFold_fst_eq (l : List Nat) (sends : Nat → Bool) :
    ∀ st : Game × Int,
      (l.foldl (fun st i => clientIterate st (sends i)) st).1 = st.1 := by
  induction l with
  | nil => intro st; rfl
  | cons a l ih =>
    intro st
    have h1 : (clientIterate st (sends a)).1 = st.1 := by
      unfold clientIterate
      by_cases h : sends a <;> simp [h]
    simp only [List.foldl_cons]
    rw [ih (clientIterate st (sends a)), h1]

/-- C7: the reporting loop of a client performs exactly MSGNR send
iterations, one per index in [0, MSGNR) with no index retried; a failed
send is logged and dropped while the loop continues to the next index;
and no iteration (failed or successful) modifies the shared RaceState:
the shared block after client_code equals the block before it. -/
theorem client_send_loop_spec (g : Game) (sends : Nat → Bool) :
    (clientSendTrace sends).length = MSGNR ∧
    (clientSendTrace sends).map Prod.fst = List.range MSGNR ∧
    (clientSendTrace sends).map Prod.snd =
      (List.range MSGNR).map
        (fun i => if sends i then SendOutcome.sent else SendOutcome.droppedLogged) ∧
    (client_code g sends).1 = g := by
  refine ⟨?_, ?_, ?_, ?_⟩
  · simp [clientSendTrace]
  · simp only [clientSendTrace, List.map_map]
    exact List.map_id (List.range MSGNR)
  · simp [clientSendTrace]
  · exact clientFold_fst_eq (List.range MSGNR) sends (g, 0)

/-- C10: random_sleep reseeds the generator on every call from the pid
alone, so its sleep duration does not depend on the incoming PRNG state
at all: two calls in the same process sleep equally long, the duration
is exactly the first draw after seeding with pid % 1234 reduced mod
398, and it is always below 398 microseconds. -/
theorem random_sleep_fixed_per_pid (randNext : Nat → Nat × Nat)
    (pid st st' : Nat) :
    (random_sleep randNext pid st).1 = (random_sleep randNext pid st').1 ∧
    (random_sleep randNext pid st).1 = (randNext (pid % 1234)).1 % 398 ∧
    (random_sleep randNext pid st).1 < 398 := by
  refine ⟨rfl, rfl, ?_⟩
  exact Nat.mod_lt _ (by norm_num)

/-- C8: a client process writes nothing into the shared RaceState after
its registration step: the final shared block equals the block right
after registration, so frontrunner, runs_done and every other pid slot
are exactly as before the client ran, and its own slot holds its pid. -/
theorem client_writes_nothing_after_register (g : Game) (i pid : Nat)
    (sends : Nat → Bool) (j : Nat) (hj : j ≠ i) :
    (client_process g i pid sends).1.frontrunner = g.frontrunner ∧
    (client_process g i pid sends).1.runs_done = g.runs_done ∧
    (client_process g i pid sends).1.clientpids i = pid ∧
    (client_process g i pid sends).1.clientpids j = g.clientpids j := by
  have h : (client_process g i pid sends).1 = register_pid g i pid :=
    clientFold_fst_eq (List.range MSGNR) sends (register_pid g i pid, 0)
  rw [h]
  refine ⟨rfl, rfl, ?_, ?_⟩
  · simp [register_pid, updN]
  · simp [register_pid, updN, hj]

/-- C8 witness: the frame property evaluated for client 2 with pid 77
over an all-successful run, looking at the untouched slot 5. -/
theorem client_writes_nothing_after_register_witness :
    (5 : Nat) ≠ 2 ∧
    ((client_process wdInit.shared 2 77 (fun _ => true)).1.frontrunner =
        wdInit.shared.frontrunner ∧
      (client_process wdInit.shared 2 77 (fun _ => true)).1.runs_done =
        wdInit.shared.runs_done ∧
      (client_process wdInit.shared 2 77 (fun _ => true)).1.clientpids 2 = 77 ∧
      (client_process wdInit.shared 2 77 (fun _ => true)).1.clientpids 5 =
        wdInit.shared.clientpids 5) :=
  ⟨by decide,
   client_writes_nothing_after_register wdInit.shared 2 77 (fun _ => true) 5
     (by decide)⟩

/-- C9: sscanf returns 0 (not a negative value) when no integer can be
converted, so the guard testing the return value against being negative
never skips any message: the handling step always runs the scoring step
on the parsed value when one exists and otherwise on the previous value
of client_nr, and the score table is incremented at exactly that index,
whatever it is — in-bounds only when the message data parses to a value
in [0, MAXCLIENTS). -/
theorem sscanf_guard_never_skips (s : WDState) (parsed : Option Int)
    (v : Int) :
    sscanf_d none = 0 ∧
    0 ≤ sscanf_d parsed ∧
    wdReceiveStep s parsed = wdStep s (parsed.getD s.client_nr) ∧
    (wdReceiveStep s none).scores s.client_nr = s.scores s.client_nr + 1 ∧
    (wdReceiveStep s (some v)).scores v = s.scores v + 1 := by
  refine ⟨rfl, ?_, ?_, ?_, ?_⟩
  · cases parsed <;> simp [sscanf_d]
  · cases parsed <;> rfl
  · simp [wdReceiveStep, sscanf_d, wdStep, updI]
  · simp [wdReceiveStep, sscanf_d, wdStep, updI]

/-- Helper: each watchdog step increments the shared runs_done counter
by exactly one. -/
theorem wdStep_runs_done (s : WDState) (m : Int) :
    (wdStep s m).shared.runs_done = s.shared.runs_done + 1 := rfl

/-- Helper: the receive loop never decreases the runs_done counter. -/
theorem wdRun_runs_done_mono (msgs : List Int) :
    ∀ s : WDState, s.shared.runs_done ≤ (wdRun s msgs).shared.runs_done := by
  induction msgs with
  | nil => intro s; exact le_refl _
  | cons m ms ih =>
    intro s
    simp only [wdRun]
    by_cases h : loopCond (wdStep s m)
    · rw [if_pos h]
      have hm := ih (wdStep s m)
      rw [wdStep_runs_done] at hm
      omega
    · rw [if_neg h, wdStep_runs_done]
      omega

/-- Helper: starting strictly below the exhaustion bound, the receive
loop never pushes runs_done past MAXRUNS, because the do-while
condition retests the counter after every increment. -/
theorem wdRun_runs_done_le (msgs : List Int) :
    ∀ s : WDState, s.shared.runs_done < MAXRUNS →
      (wdRun s msgs).shared.runs_done ≤ MAXRUNS := by
  induction msgs with
  | nil => intro s h; exact Nat.le_of_lt h
  | cons m ms ih =>
    intro s h
    simp only [wdRun]
    by_cases hc : loopCond (wdStep s m)
    · rw [if_pos hc]
      apply ih
      have hc2 := hc
      simp only [loopCond, Bool.and_eq_true, decide_eq_true_eq] at hc2
      exact hc2.2
    · rw [if_neg hc, wdStep_runs_done]
      omega

/-- C6: runs_done starts at 0, every consumed message increments it by
exactly one, it never decreases along the receive loop, and on every
run from the initial state it never exceeds MAXRUNS = MSGNR *
MAXCLIENTS. -/
theorem runs_done_monotone_bounded :
    wdInit.shared.runs_done = 0 ∧
    (∀ (s : WDState) (m : Int),
      (wdStep s m).shared.runs_done = s.shared.runs_done + 1) ∧
    (∀ (s : WDState) (msgs : List Int),
      s.shared.runs_done ≤ (wdRun s msgs).shared.runs_done) ∧
    (∀ msgs : List Int, (wdRun wdInit msgs).shared.runs_done ≤ MAXRUNS) := by
  refine ⟨rfl, wdStep_runs_done, fun s msgs => wdRun_runs_done_mono msgs s,
    fun msgs => wdRun_runs_done_le msgs wdInit (by decide)⟩

/-- Helper: the winner field after a step is the new frontrunner when
its score hit MSGNR and the triggering message came from it, and is
otherwise unchanged. -/
theorem wdStep_winner_eq (s : WDState) (m : Int) :
    (wdStep s m).winner =
      if (wdStep s m).scores ((wdStep s m).frontrunner) = MSGNR ∧
          m = (wdStep s m).frontrunner
      then (wdStep s m).frontrunner else s.winner := rfl

/-- C4: the winner is recorded exactly when the recomputed leader has
score MSGNR and the triggering message belongs to it (any change of the
winner field certifies these conditions), and recording is terminal:
as soon as the winner field is no longer -1 the receive loop consumes
no further message, so the recorded winner is unique and immutable. -/
theorem winner_terminal_unique (s : WDState) (m : Int) (ms : List Int) :
    ((wdStep s m).scores ((wdStep s m).frontrunner) = MSGNR ∧
        m = (wdStep s m).frontrunner →
      (wdStep s m).winner = (wdStep s m).frontrunner) ∧
    ((wdStep s m).winner ≠ s.winner →
      (wdStep s m).scores ((wdStep s m).frontrunner) = MSGNR ∧
        m = (wdStep s m).frontrunner ∧
        (wdStep s m).winner = (wdStep s m).frontrunner) ∧
    ((wdStep s m).winner ≠ -1 → wdRun s (m :: ms) = wdStep s m) := by
  refine ⟨?_, ?_, ?_⟩
  · intro h
    rw [wdStep_winner_eq, if_pos h]
  · intro h
    rw [wdStep_winner_eq] at h
    by_cases hc : (wdStep s m).scores ((wdStep s m).frontrunner) = MSGNR ∧
        m = (wdStep s m).frontrunner
    · exact ⟨hc.1, hc.2, by rw [wdStep_winner_eq, if_pos hc]⟩
    · rw [if_neg hc] at h
      exact absurd rfl h
  · intro h
    have hl : loopCond (wdStep s m) = false := by
      simp [loopCond, h]
    simp [wdRun, hl]

/-- C4 witness: in testState, the message completing the 100 points of
client 0 records it as winner, and the loop then ignores the rest of
the message sequence. -/
theorem winner_terminal_unique_witness :
    ((wdStep testState 0).winner = (wdStep testState 0).frontrunner) ∧
    (wdRun testState [0, 5] = wdStep testState 0) :=
  ⟨(winner_terminal_unique testState 0 [5]).1 (by decide),
   (winner_terminal_unique testState 0 [5]).2.2 (by decide)⟩

/-- Helper: the receive loop either consumes its whole message supply,
counting every message in runs_done, or ends in a state failing the
do-while condition. -/
theorem wdRun_consumed_or_stopped (msgs : List Int) :
    ∀ s : WDState,
      (wdRun s msgs).shared.runs_done = s.shared.runs_done + msgs.length ∨
      loopCond (wdRun s msgs) = false := by
  induction msgs with
  | nil => intro s; left; rfl
  | cons m ms ih =>
    intro s
    simp only [wdRun]
    by_cases hc : loopCond (wdStep s m)
    · rw [if_pos hc]
      rcases ih (wdStep s m) with h | h
      · left
        rw [h, wdStep_runs_done, List.length_cons]
        omega
      · right; exact h
    · rw [if_neg hc]
      right
      exact Bool.eq_false_iff.mpr hc

/-- C5: after each consumed message the receive loop continues exactly
when no winner is recorded and runs_done is still below MAXRUNS; the
do-while condition is false precisely when a winner exists or the bound
is reached; a run either counts its whole message supply or ends with
the condition false; and the broadcast to all MAXCLIENTS registered
pids happens afterwards unconditionally, winner or not. -/
theorem receive_loop_termination :
    (∀ (s : WDState) (m : Int) (ms : List Int),
      wdRun s (m :: ms) =
        if loopCond (wdStep s m) then wdRun (wdStep s m) ms
        else wdStep s m) ∧
    (∀ s : WDState,
      loopCond s = false ↔ (s.winner ≠ -1 ∨ MAXRUNS ≤ s.shared.runs_done)) ∧
    (∀ (msgs : List Int) (s : WDState),
      (wdRun s msgs).shared.runs_done = s.shared.runs_done + msgs.length ∨
      loopCond (wdRun s msgs) = false) ∧
    (∀ msgs : List Int, (watchdog_code msgs).2.length = MAXCLIENTS) := by
  refine ⟨fun s m ms => rfl, ?_, wdRun_consumed_or_stopped, ?_⟩
  · intro s
    rw [Bool.eq_false_iff, ne_eq]
    simp only [loopCond, Bool.and_eq_true, beq_iff_eq, decide_eq_true_eq]
    rw [not_and_or, not_lt]
  · intro msgs
    simp [watchdog_code, wdBroadcast]

/-- C1 counterexample: with message sequence client 2 then client 1,
client 2 is the leader after the first message, and after the second
message clients 1 and 2 have equal scores yet the frontrunner scan
hands the lead to client 1 — a worker whose score merely equals (does
not strictly exceed) the incumbent leader score displaces the
incumbent. -/
theorem tie_displaces_incumbent :
    (wdStep wdInit 2).frontrunner = 2 ∧
    (wdStep (wdStep wdInit 2) 1).scores 1 =
      (wdStep (wdStep wdInit 2) 1).scores 2 ∧
    (wdStep (wdStep wdInit 2) 1).frontrunner = 1 := by
  refine ⟨by decide, by decide, by decide⟩

/-- Helper: invariant of the frontrunner scan. Starting at index i with
running best score best and current candidate fr, the scan returns a
best score at least best that dominates every scanned score, and either
leaves the pair untouched or returns the least scanned index whose
score strictly exceeds best and every score before it. -/
theorem scanAux_spec (sc : Int → Nat) (n : Nat) :
    ∀ (i best : Nat) (fr : Int),
      best ≤ (scanAux sc i best fr n).1 ∧
      (∀ j : Nat, i ≤ j → j < i + n →
        sc (j : Int) ≤ (scanAux sc i best fr n).1) ∧
      (((scanAux sc i best fr n).1 = best ∧ (scanAux sc i best fr n).2 = fr) ∨
        (∃ k : Nat, i ≤ k ∧ k < i + n ∧
          (scanAux sc i best fr n).2 = (k : Int) ∧
          (scanAux sc i best fr n).1 = sc (k : Int) ∧
          best < (scanAux sc i best fr n).1 ∧
          (∀ j : Nat, i ≤ j → j < k →
            sc (j : Int) < (scanAux sc i best fr n).1))) := by
  induction n with
  | zero =>
    intro i best fr
    refine ⟨le_refl _, ?_, Or.inl ⟨rfl, rfl⟩⟩
    intro j h1 h2
    omega
  | succ n ih =>
    intro i best fr
    by_cases h : best < sc (i : Int)
    · have heq : scanAux sc i best fr (n + 1) =
          scanAux sc (i + 1) (sc (i : Int)) (i : Int) n := by
        rw [scanAux, if_pos h]
      rw [heq]
      obtain ⟨h1, h2, h3⟩ := ih (i + 1) (sc (i : Int)) (i : Int)
      refine ⟨le_of_lt (lt_of_lt_of_le h h1), ?_, ?_⟩
      · intro j hj1 hj2
        rcases Nat.eq_or_lt_of_le hj1 with rfl | hj
        · exact h1
        · exact h2 j hj (by omega)
      · rcases h3 with ⟨e1, e2⟩ | ⟨k, hk1, hk2, hk3, hk4, hk5, hk6⟩
        · refine Or.inr ⟨i, le_refl i, by omega, e2, e1, ?_, ?_⟩
          · rw [e1]; exact h
          · intro j hj1 hj2
            omega
        · refine Or.inr ⟨k, by omega, by omega, hk3, hk4,
            lt_trans h hk5, ?_⟩
          intro j hj1 hj2
          rcases Nat.eq_or_lt_of_le hj1 with rfl | hj
          · exact hk5
          · exact hk6 j hj hj2
    · have heq : scanAux sc i best fr (n + 1) =
          scanAux sc (i + 1) best fr n := by
        rw [scanAux, if_neg h]
      rw [heq]
      obtain ⟨h1, h2, h3⟩ := ih (i + 1) best fr
      refine ⟨h1, ?_, ?_⟩
      · intro j hj1 hj2
        rcases Nat.eq_or_lt_of_le hj1 with rfl | hj
        · exact le_trans (Nat.le_of_not_lt h) h1
        · exact h2 j hj (by omega)
      · rcases h3 with hl | ⟨k, hk1, hk2, hk3, hk4, hk5, hk6⟩
        · exact Or.inl hl
        · refine Or.inr ⟨k, by omega, by omega, hk3, hk4, hk5, ?_⟩
          intro j hj1 hj2
          rcases Nat.eq_or_lt_of_le hj1 with rfl | hj
          · exact lt_of_le_of_lt (Nat.le_of_not_lt h) hk5
          · exact hk6 j hj hj2

/-- Helper: if some client index holds a positive score, the full
frontrunner scan (started with best score 0) returns a client index
whose score dominates every client score, with every strictly smaller
index holding a strictly smaller score. -/
theorem scan_least_max (sc : Int → Nat) (fr0 : Int) (k : Nat)
    (hk : k < MAXCLIENTS) (hpos : 0 < sc (k : Int)) :
    (∃ kk : Nat, kk < MAXCLIENTS ∧
      (scanAux sc 0 0 fr0 MAXCLIENTS).2 = (kk : Int)) ∧
    (∀ j : Nat, j < MAXCLIENTS →
      sc (j : Int) ≤ sc ((scanAux sc 0 0 fr0 MAXCLIENTS).2)) ∧
    (∀ j : Nat, j < MAXCLIENTS →
      (j : Int) < (scanAux sc 0 0 fr0 MAXCLIENTS).2 →
      sc (j : Int) < sc ((scanAux sc 0 0 fr0 MAXCLIENTS).2)) := by
  obtain ⟨h1, h2, h3⟩ := scanAux_spec sc MAXCLIENTS 0 0 fr0
  rcases h3 with ⟨e1, _⟩ | ⟨kk, _, hk2, hk3, hk4, _, hk6⟩
  · exfalso
    have hle := h2 k (Nat.zero_le k) (by omega)
    rw [e1] at hle
    omega
  · have hr1 : (scanAux sc 0 0 fr0 MAXCLIENTS).1 =
        sc ((scanAux sc 0 0 fr0 MAXCLIENTS).2) := by
      rw [hk3]; exact hk4
    refine ⟨⟨kk, by omega, hk3⟩, ?_, ?_⟩
    · intro j hj
      have hle := h2 j (Nat.zero_le j) (by omega)
      rw [hr1] at hle
      exact hle
    · intro j hj hjfr
      have hjk : j < kk := by
        rw [hk3] at hjfr
        exact_mod_cast hjfr
      have hlt := hk6 j (Nat.zero_le j) hjk
      rw [hr1] at hlt
      exact hlt

/-- C1 amended: for every consumed message from a client in
[0, MAXCLIENTS), the step increments that client score by one and then
recomputes the leader as the lowest-indexed client whose score is
maximal: the leader is a client index, its score dominates every
client score, and every client with a strictly smaller index has a
strictly smaller score. Hence the incumbent survives a tie only when no
lower-indexed client attains the same maximal score; arrival order
plays no role in the tie-break. -/
theorem leader_least_index_of_max (s : WDState) (m : Int)
    (h0 : 0 ≤ m) (h1 : m < (MAXCLIENTS : Int)) :
    (wdStep s m).scores m = s.scores m + 1 ∧
    (∃ k : Nat, k < MAXCLIENTS ∧ (wdStep s m).frontrunner = (k : Int)) ∧
    (∀ j : Nat, j < MAXCLIENTS →
      (wdStep s m).scores (j : Int) ≤
        (wdStep s m).scores ((wdStep s m).frontrunner)) ∧
    (∀ j : Nat, j < MAXCLIENTS → (j : Int) < (wdStep s m).frontrunner →
      (wdStep s m).scores (j : Int) <
        (wdStep s m).scores ((wdStep s m).frontrunner)) := by
  have hsc : (wdStep s m).scores = updI s.scores m (s.scores m + 1) := rfl
  have hfr : (wdStep s m).frontrunner =
      (scanAux (updI s.scores m (s.scores m + 1)) 0 0
        s.frontrunner MAXCLIENTS).2 := rfl
  have hmlt : m.toNat < MAXCLIENTS := by omega
  have hm : ((m.toNat : Nat) : Int) = m := Int.toNat_of_nonneg h0
  have hpos : 0 < updI s.scores m (s.scores m + 1) ((m.toNat : Nat) : Int) := by
    rw [hm]
    simp [updI]
  obtain ⟨ha, hb, hc⟩ :=
    scan_least_max (updI s.scores m (s.scores m + 1)) s.frontrunner
      m.toNat hmlt hpos
  rw [hsc, hfr]
  refine ⟨?_, ha, hb, hc⟩
  simp [updI]

/-- C1 amended witness: the characterization evaluated on the very
first message of a run, sent by client 3. -/
theorem leader_least_index_of_max_witness :
    ((0 : Int) ≤ 3 ∧ (3 : Int) < (MAXCLIENTS : Int)) ∧
    ((wdStep wdInit 3).scores 3 = wdInit.scores 3 + 1 ∧
      (∃ k : Nat, k < MAXCLIENTS ∧ (wdStep wdInit 3).frontrunner = (k : Int)) ∧
      (∀ j : Nat, j < MAXCLIENTS →
        (wdStep wdInit 3).scores (j : Int) ≤
          (wdStep wdInit 3).scores ((wdStep wdInit 3).frontrunner)) ∧
      (∀ j : Nat, j < MAXCLIENTS → (j : Int) < (wdStep wdInit 3).frontrunner →
        (wdStep wdInit 3).scores (j : Int) <
          (wdStep wdInit 3).scores ((wdStep wdInit 3).frontrunner))) :=
  ⟨⟨by decide, by decide⟩,
   leader_least_index_of_max wdInit 3 (by decide) (by decide)⟩

end IpcGame
